import Mathlib

/-!
Verification of the Quarantine sprite decoder (src/imagexcel_decode.c).

The C program is embedded shallowly:

* a file that may fail to open is an `Option (List Nat)`; a successfully
  opened regular file is its byte list (each byte a `Nat` in `[0,256)`);
* POSIX `read(fd, buf, n)` at cursor `pos` on a regular file returns
  `min n (len - pos)` bytes and advances the cursor by that amount; this
  is `readBytes` together with explicit cursor arithmetic;
* POSIX `lseek(fd, off, SEEK_SET)` on a regular file always succeeds and
  returns `off`, even past end of file;
* `malloc` is modelled as always succeeding (the program targets glibc,
  where `malloc 0` also returns a non-null pointer);
* `fprintf` to an already-open stream is modelled as appending to the
  output string; its return value is ignored by the program;
* `open`/`close` calls on the palette and archive descriptors are recorded
  in an `FdEvent` trace so that resource-release behaviour is provable.
-/

/-- `#define MODEX_PLANES 4` -/
def MODEX_PLANES : Nat := 4

/-- `#define PALETTE_DATA_OFFSET 0xD` -/
def PALETTE_DATA_OFFSET : Nat := 13

/-- `#define PALETTE_SIZE_COLORS 256` -/
def PALETTE_SIZE_COLORS : Nat := 256

/-- `#define PALETTE_SIZE_BYTES 768` -/
def PALETTE_SIZE_BYTES : Nat := 768

/-- `#define MAX_FILENAME_LEN 32` -/
def MAX_FILENAME_LEN : Nat := 32

/-- The RGB triplet struct `palette_entry` of the C source. -/
structure palette_entry where
  r : Nat
  g : Nat
  b : Nat
deriving DecidableEq

/-- File-descriptor lifecycle events, used to track `open`/`close` calls. -/
inductive FdEvent where
  | opened
  | closed
  | openFailed
deriving DecidableEq

/-- `read(fd, buf, n)` on a regular file whose bytes are `f`, with the file
cursor at `pos`: the bytes obtained are `(f.drop pos).take n` (a short list
exactly when fewer than `n` bytes remain). -/
def readBytes (f : List Nat) (pos n : Nat) : List Nat :=
  (f.drop pos).take n

/-- Result of `read_palette`, tagging which of the C function's branches
produced the `false` status (the C code distinguishes them by its
`fprintf(stderr, ...)` messages): open failure, seek failure, read
failure, or success carrying the 768 palette bytes. -/
inductive PalResult where
  | ok (bytes : List Nat)
  | openErr
  | seekErr
  | readErr
deriving DecidableEq

/-- Whether a `PalResult` is the success case. -/
def PalResult.isOk : PalResult → Bool
  | .ok _ => true
  | _ => false

/-- `read_palette` (C lines 106-138).  Opens the file, seeks to byte 13,
reads 768 bytes, and succeeds only when all 768 were obtained.
On a regular file `lseek(fd, 13, SEEK_SET)` always succeeds and returns 13
(POSIX permits seeking past end of file), so the C seek-failure branch is
unreachable in this model and a short source is reported by the read check.
The descriptor is closed on every path inside the successful-open branch. -/
def read_palette (src : Option (List Nat)) : PalResult × List FdEvent :=
  match src with
  | none => (.openErr, [.openFailed])
  | some f =>
    if PALETTE_DATA_OFFSET = PALETTE_DATA_OFFSET then
      (if (readBytes f PALETTE_DATA_OFFSET PALETTE_SIZE_BYTES).length = PALETTE_SIZE_BYTES
        then .ok (readBytes f PALETTE_DATA_OFFSET PALETTE_SIZE_BYTES)
        else .readErr,
       [.opened, .closed])
    else
      (.seekErr, [.opened, .closed])

/-- The 768 palette bytes of a palette file: bytes `[13, 13+768)`. -/
def paletteSlice (f : List Nat) : List Nat :=
  readBytes f PALETTE_DATA_OFFSET PALETTE_SIZE_BYTES

/-- The cast `(palette_entry*)palette_data` performed by `main`: the raw
palette byte array reinterpreted as consecutive `(r,g,b)` triplets. -/
def toTriples : List Nat → List palette_entry
  | r :: g :: b :: t => ⟨r, g, b⟩ :: toTriples t
  | _ => []

/-- `%03d` formatting of a byte value (used both for pixel channels and for
the sprite index in the output file name). -/
def pad3 (n : Nat) : String :=
  if n < 10 then "00" ++ toString n
  else if n < 100 then "0" ++ toString n
  else toString n

/-- `palette[pal_index]`: array indexing into the 256-entry color table. -/
def palLookup (pal : List palette_entry) (i : Nat) : palette_entry :=
  pal.getD i ⟨0, 0, 0⟩

/-- One `fprintf(fd, "%03d %03d %03d   ", ...)` pixel triplet. -/
def tripletStr (e : palette_entry) : String :=
  pad3 e.r ++ " " ++ pad3 e.g ++ " " ++ pad3 e.b ++ "   "

/-- Sequential `fprintf` calls appending to one output stream. -/
def sconcat : List String → String
  | [] => ""
  | s :: t => s ++ sconcat t

/-- The text written by `write_ppm` after a successful `fopen`:
the `"P3\n%d %d\n255"` header followed by the pixel loop, which prints a
newline before every pixel whose index is divisible by 4 and then the
pixel's palette triplet.  The pixel buffer is indexed as `data[pixel_index]`
for `pixel_index < width * height`. -/
def write_ppm_content (pal : List palette_entry) (data : List Nat) (width height : Nat) : String :=
  "P3\n" ++ toString width ++ " " ++ toString height ++ "\n255" ++
    sconcat ((List.range (width * height)).map fun i =>
      (if i % 4 = 0 then "\n" else "") ++ tripletStr (palLookup pal (data.getD i 0)))

/-- The output file name built by
`snprintf(filename, MAX_FILENAME_LEN - 1, "%s_%03d.ppm", filename_base, sprite_index)`:
`snprintf` with size 31 stores at most 30 characters plus the terminator,
silently truncating anything longer. -/
def ppm_filename (base : String) (idx : Nat) : String :=
  ⟨(base ++ "_" ++ pad3 idx ++ ".ppm").data.take (MAX_FILENAME_LEN - 2)⟩

/-- `write_ppm` (C lines 246-287).  `canOpen` models whether
`fopen(filename, "w")` succeeds.  On success the function writes the header
and pixel text, closes the stream, and returns `true`; the return values of
the individual `fprintf` calls are never inspected.  On open failure it
returns `false` and produces no artifact.  The produced artifact is the pair
(file name, file content). -/
def write_ppm (base : String) (idx : Nat) (pal : List palette_entry)
    (data : List Nat) (width height : Nat) (canOpen : Bool) :
    Bool × List (String × String) :=
  if canOpen then
    (true, [(ppm_filename base idx, write_ppm_content pal data width height)])
  else
    (false, [])

/-- The directory entries decoded from the header byte pairs: entry `i`
is `(i, header[2*i], header[2*i+1])`, i.e. the C array
`width_height_data[sprite_index]` tagged with its sprite index. -/
def toEntries : Nat → List Nat → List (Nat × Nat × Nat)
  | i, w :: h :: t => (i, w, h) :: toEntries (i + 1) t
  | _, _ => []

/-- The per-sprite loop of `decode_spr` (C lines 169-211), processing the
directory entries in order.  State: the archive bytes `f`, the file cursor
`pos`, and the running `status` flag `st`.  For a non-empty entry the loop
reads `width*height` bytes (the cursor advances by the number of bytes
actually obtained); on a full read it calls `write_ppm` (whose `fopen`
success is `cw i`) and clears the status on a write failure; on a short read
it clears the status and continues with the next entry; an empty entry is
skipped without touching the file.  Returns the final status and the
artifacts written, each tagged with its sprite index. -/
def processEntries (f : List Nat) (base : String) (pal : List palette_entry) (cw : Nat → Bool) :
    List (Nat × Nat × Nat) → Nat → Bool → Bool × List (Nat × String × String)
  | [], _, st => (st, [])
  | (i, w, h) :: rest, pos, st =>
    if w ≠ 0 ∧ h ≠ 0 then
      let chunk := readBytes f pos (w * h)
      if chunk.length = w * h then
        let wr := write_ppm base i pal chunk w h (cw i)
        let r := processEntries f base pal cw rest (pos + w * h) (st && wr.1)
        (r.1, wr.2.map (fun a => (i, a.1, a.2)) ++ r.2)
      else
        processEntries f base pal cw rest (pos + chunk.length) false
    else
      processEntries f base pal cw rest pos st

/-- The result of `decode_spr`: the returned status, the artifacts written
(sprite index, output file name, output file content), and the trace of
descriptor events on the archive file. -/
structure DecodeResult where
  status : Bool
  artifacts : List (Nat × String × String)
  events : List FdEvent
deriving DecidableEq

/-- `decode_spr` (C lines 145-241).  Opens the archive (failure: `none`),
reads one byte as the sprite count, reads `2*num_sprites` header bytes
(failing on a short read), and runs the per-sprite loop from cursor
`1 + 2*num_sprites`.  `malloc` is modelled as always succeeding.  Note that
the C function returns on every path without calling `close(fd)`, so the
event trace of an opened archive is `[.opened]` with no `.closed`. -/
def decode_spr (base : String) (src : Option (List Nat)) (pal : List palette_entry)
    (cw : Nat → Bool) : DecodeResult :=
  match src with
  | none => ⟨false, [], [.openFailed]⟩
  | some [] => ⟨false, [], [.opened]⟩
  | some (n :: t) =>
    if (readBytes (n :: t) 1 (2 * n)).length = 2 * n then
      let r := processEntries (n :: t) base pal cw
        (toEntries 0 (readBytes (n :: t) 1 (2 * n))) (1 + 2 * n) true
      ⟨r.1, r.2, [.opened]⟩
    else
      ⟨false, [], [.opened]⟩

/-- Per-sprite outcome of the `decode_spr` loop: entry skipped (zero
dimension), payload short read, output write failure, or success. -/
inductive SpriteOutcome where
  | skipped
  | shortRead
  | writeFailed
  | wroteOk
deriving DecidableEq

/-- Whether a sprite outcome leaves the decode status intact. -/
def outcomeOk : SpriteOutcome → Bool
  | .skipped => true
  | .wroteOk => true
  | .shortRead => false
  | .writeFailed => false

/-- The outcome trace of the `decode_spr` loop: one outcome per directory
entry, with the same cursor evolution as `processEntries`. -/
def entryOutcomes (f : List Nat) (cw : Nat → Bool) :
    List (Nat × Nat × Nat) → Nat → List SpriteOutcome
  | [], _ => []
  | (i, w, h) :: rest, pos =>
    if w ≠ 0 ∧ h ≠ 0 then
      let chunk := readBytes f pos (w * h)
      if chunk.length = w * h then
        (if cw i then .wroteOk else .writeFailed) :: entryOutcomes f cw rest (pos + w * h)
      else
        .shortRead :: entryOutcomes f cw rest (pos + chunk.length)
    else
      .skipped :: entryOutcomes f cw rest pos

/-- The outcome trace of decoding the archive `count :: t`. -/
def archiveOutcomes (n : Nat) (t : List Nat) (cw : Nat → Bool) : List SpriteOutcome :=
  entryOutcomes (n :: t) cw (toEntries 0 (readBytes (n :: t) 1 (2 * n))) (1 + 2 * n)

/-- `linearize_planar_data` writes, for plane `mp < 4` and in-plane pixel
`pi < pixelcount / 4`, the byte `planar[mp * (pixelcount/4) + pi]` to linear
position `4 * pi + mp`; this is the list of (destination, value) pairs in
loop order. -/
def linearWrites (planar : List Nat) (pixelcount : Nat) : List (Nat × Nat) :=
  (List.range MODEX_PLANES).flatMap fun mp =>
    (List.range (pixelcount / MODEX_PLANES)).map fun pi =>
      (MODEX_PLANES * pi + mp, planar.getD (mp * (pixelcount / MODEX_PLANES) + pi) 0)

/-- `linearize_planar_data` (C lines 86-99): the caller-supplied output
buffer `linear` after executing all writes of the nested plane/pixel loops. -/
def linearize_planar_data (planar linear : List Nat) (pixelcount : Nat) : List Nat :=
  (linearWrites planar pixelcount).foldl (fun l iv => l.set iv.1 iv.2) linear

/-- The directory bytes of an archive: the `(width, height)` byte pairs in
order. -/
def encodeDir (dir : List (Nat × Nat)) : List Nat :=
  dir.flatMap fun wh => [wh.1, wh.2]

/-- An archive built by concatenating the sprite count, the directory, and
the payload segments in directory order. -/
def encodeArchive (dir : List (Nat × Nat)) (pls : List (List Nat)) : List Nat :=
  dir.length :: (encodeDir dir ++ pls.flatten)

/-- Spec side: the payload's pixel indices mapped through the palette, in
order, with no reordering. -/
def specTriplets (pal : List palette_entry) (pl : List Nat) : List palette_entry :=
  pl.map (palLookup pal)

/-- Spec side: render a triplet sequence as PPM text, first triplet at pixel
index `j`, with a line break before every index divisible by 4. -/
def renderFrom (j : Nat) : List palette_entry → String
  | [] => ""
  | e :: ts => ((if j % 4 = 0 then "\n" else "") ++ tripletStr e) ++ renderFrom (j + 1) ts

/-- Spec side: the artifacts a correct decode of `encodeArchive dir pls`
must produce, starting at sprite index `i`: one artifact per non-empty
entry, whose content is that entry's payload mapped through the palette and
rendered in order. -/
def expectedArtifacts (base : String) (pal : List palette_entry) :
    Nat → List (Nat × Nat) → List (List Nat) → List (Nat × String × String)
  | _, [], _ => []
  | _, _ :: _, [] => []
  | i, (w, h) :: dt, pl :: plt =>
    if w ≠ 0 ∧ h ≠ 0 then
      (i, ppm_filename base i,
        "P3\n" ++ toString w ++ " " ++ toString h ++ "\n255" ++
          renderFrom 0 (specTriplets pal pl)) :: expectedArtifacts base pal (i + 1) dt plt
    else
      expectedArtifacts base pal (i + 1) dt plt

/-- Spec side (claim C2): 256 color entries whose bytes are the source bytes
`[13, 781)` grouped in order as `(R, G, B)`. -/
def specPalette (f : List Nat) : List palette_entry :=
  (List.range PALETTE_SIZE_COLORS).map fun j =>
    ⟨f.getD (PALETTE_DATA_OFFSET + 3 * j) 0,
     f.getD (PALETTE_DATA_OFFSET + 3 * j + 1) 0,
     f.getD (PALETTE_DATA_OFFSET + 3 * j + 2) 0⟩

/-- The grayscale test palette: index `i` maps to `(i, i, i)`. -/
def grayPal : List palette_entry :=
  (List.range 256).map fun i => ⟨i, i, i⟩

/-- A 30-character archive base name, long enough that the constructed
output name overflows the 31-character cap. -/
def longBase : String := "QUARANTINE_SPRITE_ARCHIVE_FILE"

/-- The directory list tagged with sprite indices starting at `i`:
`enumTriples i [(w0,h0), ...] = [(i,w0,h0), (i+1,w1,h1), ...]`. -/
def enumTriples : Nat → List (Nat × Nat) → List (Nat × Nat × Nat)
  | _, [] => []
  | i, (w, h) :: t => (i, w, h) :: enumTriples (i + 1) t

/-! ## Theorems -/

theorem readBytes_length (f : List Nat) (pos n : Nat) :
    (readBytes f pos n).length = min n (f.length - pos) := by
  simp [readBytes]

/-- C10: `write_ppm` returns success exactly when the output file could be
opened: the `fprintf` results are never inspected and cannot change the
returned status, whatever the palette, pixel data, or dimensions. -/
theorem write_ppm_status_eq_open (base : String) (idx : Nat) (pal : List palette_entry)
    (data : List Nat) (w h : Nat) (canOpen : Bool) :
    (write_ppm base idx pal data w h canOpen).1 = canOpen := by
  cases canOpen <;> rfl

/-- C5: for a 4-by-2 sprite with payload bytes 0..7 and the grayscale
palette (index i maps to (i,i,i)), `write_ppm` emits the "P3" format tag,
the dimensions "4 2", the max channel value 255, then the eight pixel
triplets "000 000 000" through "007 007 007" in order, each channel a
zero-padded three-digit decimal, with a line break after the 4th triplet
(and one separating the header from the first triplet). -/
theorem write_ppm_content_4x2 :
    write_ppm_content grayPal [0, 1, 2, 3, 4, 5, 6, 7] 4 2 =
      "P3\n4 2\n255\n000 000 000   001 001 001   002 002 002   003 003 003   " ++
        "\n004 004 004   005 005 005   006 006 006   007 007 007   " := by
  decide

/-- C6: an archive whose sprite-count byte is 0 decodes successfully and
emits no artifacts. -/
theorem decode_spr_empty_archive (base : String) (pal : List palette_entry)
    (cw : Nat → Bool) (f : List Nat) (h : f.head? = some 0) :
    decode_spr base (some f) pal cw = ⟨true, [], [FdEvent.opened]⟩ := by
  match f, h with
  | 0 :: t, _ =>
    simp [decode_spr, readBytes, toEntries, processEntries]

/-- C6 witness: the one-byte archive `[0]`. -/
theorem decode_spr_empty_archive_witness :
    ([0] : List Nat).head? = some 0 ∧
    decode_spr "T" (some [0]) grayPal (fun _ => true) = ⟨true, [], [FdEvent.opened]⟩ :=
  ⟨rfl, decode_spr_empty_archive "T" grayPal (fun _ => true) [0] rfl⟩

/-- C7 (code bug): `read_palette` does close its descriptor on both the
success and the short-source path, but `decode_spr` opens the archive and
returns without ever calling `close` — even on a fully successful decode
its event trace contains `.opened` and no `.closed`. -/
theorem decode_spr_leaks_descriptor :
    (decode_spr "T" (some [0]) grayPal (fun _ => true)).events = [FdEvent.opened] ∧
    FdEvent.closed ∉ (decode_spr "T" (some [0]) grayPal (fun _ => true)).events ∧
    (read_palette (some (List.replicate 781 0))).2 = [FdEvent.opened, FdEvent.closed] ∧
    (read_palette (some [1, 2, 3])).2 = [FdEvent.opened, FdEvent.closed] := by
  refine ⟨?_, ?_, ?_, ?_⟩ <;> decide

/-- C8 (counterexample): for a 30-character base name the constructed name
`<base>_000.ppm` is 38 characters, beyond the 31-character cap, yet
`write_ppm` does not fail: it silently truncates the name (to its first 30
characters) and creates the artifact under the truncated name. -/
theorem write_ppm_no_length_failure :
    31 < (longBase ++ "_" ++ pad3 0 ++ ".ppm").length ∧
    (write_ppm longBase 0 grayPal [0] 1 1 true).1 = true ∧
    ppm_filename longBase 0 ≠ longBase ++ "_" ++ pad3 0 ++ ".ppm" ∧
    (write_ppm longBase 0 grayPal [0] 1 1 true).2.map (fun a => a.1) =
      [ppm_filename longBase 0] := by
  refine ⟨?_, ?_, ?_, ?_⟩ <;> decide

/-- C8 (amended): `write_ppm` never fails because of the output-name
length; `snprintf` with buffer size 31 silently truncates the constructed
name to at most 30 characters, and the returned status depends only on
whether the output file could be opened. -/
theorem write_ppm_truncates_silently (base : String) (idx : Nat) (pal : List palette_entry)
    (data : List Nat) (w h : Nat) (canOpen : Bool) :
    (ppm_filename base idx).length ≤ 30 ∧
    (write_ppm base idx pal data w h canOpen).1 = canOpen := by
  constructor
  · have : (ppm_filename base idx).length =
        ((base ++ "_" ++ pad3 idx ++ ".ppm").data.take (MAX_FILENAME_LEN - 2)).length := rfl
    rw [this, List.length_take]
    exact min_le_left _ _
  · cases canOpen <;> rfl

theorem toTriples_length : ∀ l : List Nat, (toTriples l).length = l.length / 3
  | [] => rfl
  | [_] => by simp [toTriples]
  | [_, _] => by simp [toTriples]
  | _ :: _ :: _ :: t => by
    simp only [toTriples, List.length_cons, toTriples_length t]
    omega

theorem toTriples_getD : ∀ (l : List Nat) (j : Nat), 3 * j + 2 < l.length →
    (toTriples l).getD j ⟨0, 0, 0⟩ =
      ⟨l.getD (3 * j) 0, l.getD (3 * j + 1) 0, l.getD (3 * j + 2) 0⟩
  | r :: g :: b :: t, 0, _ => rfl
  | r :: g :: b :: t, j + 1, hj => by
    have ht : 3 * j + 2 < t.length := by
      simp only [List.length_cons] at hj
      omega
    have h0 : 3 * (j + 1) = 3 * j + 1 + 1 + 1 := by omega
    have h1 : 3 * (j + 1) + 1 = 3 * j + 2 + 1 + 1 := by omega
    have h2 : 3 * (j + 1) + 2 = 3 * j + 2 + 1 + 1 + 1 := by omega
    simp only [toTriples, List.getD_cons_succ, h0, h1, h2]
    exact toTriples_getD t j ht
  | [], j, hj => by simp at hj
  | [_], j, hj => by simp at hj
  | [_, _], j, hj => by simp at hj

theorem paletteSlice_getD (f : List Nat) (m : Nat) (hm : m < 768) :
    (paletteSlice f).getD m 0 = f.getD (13 + m) 0 := by
  simp only [paletteSlice, readBytes, PALETTE_DATA_OFFSET, PALETTE_SIZE_BYTES]
  rw [List.getD_eq_getElem?_getD, List.getD_eq_getElem?_getD,
    List.getElem?_take_of_lt hm, List.getElem?_drop]

theorem paletteSlice_length (f : List Nat) (hf : 781 ≤ f.length) :
    (paletteSlice f).length = 768 := by
  simp only [paletteSlice, readBytes_length, PALETTE_SIZE_BYTES, PALETTE_DATA_OFFSET]
  omega

theorem toTriples_paletteSlice (f : List Nat) (hf : 781 ≤ f.length) :
    toTriples (paletteSlice f) = specPalette f := by
  have hlen : (paletteSlice f).length = 768 := paletteSlice_length f hf
  apply List.ext_getElem
  · rw [toTriples_length, hlen]
    simp [specPalette, PALETTE_SIZE_COLORS]
  · intro i h1 h2
    have hi : i < 256 := by
      have := h1
      rw [toTriples_length, hlen] at this
      omega
    have hgetD : (toTriples (paletteSlice f))[i] = (toTriples (paletteSlice f)).getD i ⟨0, 0, 0⟩ := by
      rw [List.getD_eq_getElem?_getD, List.getElem?_eq_getElem h1]
      rfl
    rw [hgetD, toTriples_getD _ i (by rw [hlen]; omega)]
    simp only [specPalette, PALETTE_SIZE_COLORS, PALETTE_DATA_OFFSET, List.getElem_map,
      List.getElem_range]
    rw [paletteSlice_getD f _ (by omega), paletteSlice_getD f _ (by omega),
      paletteSlice_getD f _ (by omega)]
    simp [Nat.add_assoc]

/-- C2: a palette source of at least 781 bytes makes `read_palette` succeed
with exactly the source bytes `[13, 781)`, which grouped as consecutive
(R,G,B) triplets form exactly the 256-entry color table described by the
spec; a source shorter than 781 bytes makes it fail with the seek- or
read-error branch and never with a success result. -/
theorem read_palette_spec (f : List Nat) :
    (781 ≤ f.length →
      (read_palette (some f)).1 = PalResult.ok (paletteSlice f) ∧
      (toTriples (paletteSlice f)).length = 256 ∧
      toTriples (paletteSlice f) = specPalette f) ∧
    (f.length < 781 →
      (read_palette (some f)).1.isOk = false ∧
      ((read_palette (some f)).1 = PalResult.seekErr ∨
        (read_palette (some f)).1 = PalResult.readErr)) := by
  constructor
  · intro hf
    refine ⟨?_, ?_, toTriples_paletteSlice f hf⟩
    · have hcond : (readBytes f PALETTE_DATA_OFFSET PALETTE_SIZE_BYTES).length =
          PALETTE_SIZE_BYTES := by
        rw [readBytes_length]
        simp only [PALETTE_SIZE_BYTES, PALETTE_DATA_OFFSET]
        omega
      simp only [read_palette, if_pos rfl, if_pos hcond, ite_true, paletteSlice]
    · rw [toTriples_length, paletteSlice_length f hf]
  · intro hf
    have hshort : ¬((readBytes f PALETTE_DATA_OFFSET PALETTE_SIZE_BYTES).length =
        PALETTE_SIZE_BYTES) := by
      rw [readBytes_length]
      simp only [PALETTE_SIZE_BYTES, PALETTE_DATA_OFFSET]
      omega
    simp only [read_palette, if_pos rfl, if_neg hshort]
    exact ⟨rfl, Or.inr rfl⟩

/-- C2 witness: a 781-byte source succeeds with the full table; a 3-byte
source fails with a read error. -/
theorem read_palette_spec_witness :
    (781 ≤ (List.replicate 781 5).length ∧
      (read_palette (some (List.replicate 781 5))).1 =
        PalResult.ok (paletteSlice (List.replicate 781 5)) ∧
      (toTriples (paletteSlice (List.replicate 781 5))).length = 256 ∧
      toTriples (paletteSlice (List.replicate 781 5)) = specPalette (List.replicate 781 5)) ∧
    (([1, 2, 3] : List Nat).length < 781 ∧
      (read_palette (some [1, 2, 3])).1.isOk = false ∧
      ((read_palette (some [1, 2, 3])).1 = PalResult.seekErr ∨
        (read_palette (some [1, 2, 3])).1 = PalResult.readErr)) :=
  ⟨⟨by simp only [List.length_replicate]; omega,
    (read_palette_spec (List.replicate 781 5)).1 (by simp only [List.length_replicate]; omega)⟩,
   ⟨by norm_num, (read_palette_spec [1, 2, 3]).2 (by norm_num)⟩⟩


theorem processEntries_cons (f : List Nat) (base : String) (pal : List palette_entry)
    (cw : Nat → Bool) (i w h : Nat) (rest : List (Nat × Nat × Nat)) (pos : Nat) (st : Bool) :
    processEntries f base pal cw ((i, w, h) :: rest) pos st =
      if w ≠ 0 ∧ h ≠ 0 then
        (if (readBytes f pos (w * h)).length = w * h then
          ((processEntries f base pal cw rest (pos + w * h)
              (st && (write_ppm base i pal (readBytes f pos (w * h)) w h (cw i)).1)).1,
           (write_ppm base i pal (readBytes f pos (w * h)) w h (cw i)).2.map
               (fun a => (i, a.1, a.2)) ++
             (processEntries f base pal cw rest (pos + w * h)
               (st && (write_ppm base i pal (readBytes f pos (w * h)) w h (cw i)).1)).2)
        else
          processEntries f base pal cw rest (pos + (readBytes f pos (w * h)).length) false)
      else
        processEntries f base pal cw rest pos st := rfl

theorem entryOutcomes_cons (f : List Nat) (cw : Nat → Bool) (i w h : Nat)
    (rest : List (Nat × Nat × Nat)) (pos : Nat) :
    entryOutcomes f cw ((i, w, h) :: rest) pos =
      if w ≠ 0 ∧ h ≠ 0 then
        (if (readBytes f pos (w * h)).length = w * h then
          (if cw i then .wroteOk else .writeFailed) :: entryOutcomes f cw rest (pos + w * h)
        else
          .shortRead :: entryOutcomes f cw rest (pos + (readBytes f pos (w * h)).length))
      else
        .skipped :: entryOutcomes f cw rest pos := rfl

theorem processEntries_status (f : List Nat) (base : String) (pal : List palette_entry)
    (cw : Nat → Bool) :
    ∀ (es : List (Nat × Nat × Nat)) (pos : Nat) (st : Bool),
      (processEntries f base pal cw es pos st).1 =
        (st && (entryOutcomes f cw es pos).all outcomeOk)
  | [], pos, st => by simp [processEntries, entryOutcomes]
  | (i, w, h) :: rest, pos, st => by
    rw [processEntries_cons, entryOutcomes_cons]
    by_cases hwh : w ≠ 0 ∧ h ≠ 0
    · rw [if_pos hwh, if_pos hwh]
      by_cases hc : (readBytes f pos (w * h)).length = w * h
      · rw [if_pos hc, if_pos hc]
        rw [processEntries_status f base pal cw rest (pos + w * h)
          (st && (write_ppm base i pal (readBytes f pos (w * h)) w h (cw i)).1)]
        cases hcw : cw i <;>
          simp [write_ppm, outcomeOk, Bool.and_assoc]
      · rw [if_neg hc, if_neg hc]
        rw [processEntries_status f base pal cw rest
          (pos + (readBytes f pos (w * h)).length) false]
        simp [outcomeOk]
    · rw [if_neg hwh, if_neg hwh]
      rw [processEntries_status f base pal cw rest pos st]
      simp [outcomeOk]

theorem entryOutcomes_length (f : List Nat) (cw : Nat → Bool) :
    ∀ (es : List (Nat × Nat × Nat)) (pos : Nat),
      (entryOutcomes f cw es pos).length = es.length
  | [], _ => rfl
  | (i, w, h) :: rest, pos => by
    rw [entryOutcomes_cons]
    by_cases hwh : w ≠ 0 ∧ h ≠ 0
    · rw [if_pos hwh]
      by_cases hc : (readBytes f pos (w * h)).length = w * h
      · rw [if_pos hc]
        simp [entryOutcomes_length f cw rest]
      · rw [if_neg hc]
        simp [entryOutcomes_length f cw rest]
    · rw [if_neg hwh]
      simp [entryOutcomes_length f cw rest]

theorem toEntries_length : ∀ (i0 : Nat) (l : List Nat),
    (toEntries i0 l).length = l.length / 2
  | _, [] => rfl
  | _, [_] => by simp [toEntries]
  | i0, w :: h :: t => by
    simp only [toEntries, List.length_cons, toEntries_length (i0 + 1) t]
    omega

/-- C3: with a readable count byte and a complete directory, the decode
status is true exactly when every directory entry's outcome is a skip or a
successful write (every non-empty sprite both fully read and written); the
outcome trace has one entry per directory slot, so a short payload read is
recorded (status false) while the loop still iterates every remaining
entry; in particular a short read anywhere forces an overall failure. -/
theorem decode_spr_partial_failure (base : String) (pal : List palette_entry)
    (cw : Nat → Bool) (n : Nat) (t : List Nat)
    (hh : (readBytes (n :: t) 1 (2 * n)).length = 2 * n) :
    ((decode_spr base (some (n :: t)) pal cw).status = true ↔
      (archiveOutcomes n t cw).all outcomeOk = true) ∧
    (archiveOutcomes n t cw).length = n ∧
    (SpriteOutcome.shortRead ∈ archiveOutcomes n t cw →
      (decode_spr base (some (n :: t)) pal cw).status = false) := by
  have hs : (decode_spr base (some (n :: t)) pal cw).status =
      (archiveOutcomes n t cw).all outcomeOk := by
    simp only [decode_spr, if_pos hh]
    rw [archiveOutcomes, processEntries_status]
    simp
  refine ⟨by rw [hs], ?_, ?_⟩
  · rw [archiveOutcomes, entryOutcomes_length, toEntries_length, hh]
    omega
  · intro hmem
    rw [hs]
    cases hall : (archiveOutcomes n t cw).all outcomeOk
    · rfl
    · exfalso
      have := List.all_eq_true.mp hall _ hmem
      simp [outcomeOk] at this

/-- C3 witness: a 3-sprite archive whose first 1x1 payload is present,
second entry is empty, and third payload is missing: all three entries get
outcomes and the decode fails. -/
theorem decode_spr_partial_failure_witness :
    (readBytes (3 :: [1, 1, 0, 5, 1, 1, 9]) 1 (2 * 3)).length = 2 * 3 ∧
    (((decode_spr "T" (some (3 :: [1, 1, 0, 5, 1, 1, 9])) grayPal (fun _ => true)).status = true ↔
        (archiveOutcomes 3 [1, 1, 0, 5, 1, 1, 9] (fun _ => true)).all outcomeOk = true) ∧
      (archiveOutcomes 3 [1, 1, 0, 5, 1, 1, 9] (fun _ => true)).length = 3 ∧
      (SpriteOutcome.shortRead ∈ archiveOutcomes 3 [1, 1, 0, 5, 1, 1, 9] (fun _ => true) →
        (decode_spr "T" (some (3 :: [1, 1, 0, 5, 1, 1, 9])) grayPal (fun _ => true)).status =
          false)) :=
  ⟨by decide,
   decode_spr_partial_failure "T" grayPal (fun _ => true) 3 [1, 1, 0, 5, 1, 1, 9] (by decide)⟩

theorem processEntries_artifact_indices (f : List Nat) (base : String) (pal : List palette_entry)
    (cw : Nat → Bool) :
    ∀ (es : List (Nat × Nat × Nat)) (pos : Nat) (st : Bool) (x : Nat × String × String),
      x ∈ (processEntries f base pal cw es pos st).2 → x.1 ∈ es.map (fun e => e.1)
  | [], _, _, _ => fun hx => absurd hx (List.not_mem_nil _)
  | (i, w, h) :: rest, pos, st, x => by
    rw [processEntries_cons]
    by_cases hwh : w ≠ 0 ∧ h ≠ 0
    · rw [if_pos hwh]
      by_cases hc : (readBytes f pos (w * h)).length = w * h
      · rw [if_pos hc]
        intro hx
        rcases List.mem_append.mp hx with hl | hr
        · rcases List.mem_map.mp hl with ⟨a, _, ha⟩
          simp [← ha]
        · have := processEntries_artifact_indices f base pal cw rest _ _ x hr
          simp [this]
      · rw [if_neg hc]
        intro hx
        have := processEntries_artifact_indices f base pal cw rest _ _ x hx
        simp [this]
    · rw [if_neg hwh]
      intro hx
      have := processEntries_artifact_indices f base pal cw rest _ _ x hx
      simp [this]

/-- C4: a directory entry with width 0 or height 0 is skipped: processing
it is identical to processing the remaining entries from the same file
cursor (no payload bytes consumed, every subsequent entry handled at the
offset determined by the preceding non-empty entries only), and no artifact
carries the empty entry's sprite index. -/
theorem decode_spr_skips_empty (f : List Nat) (base : String) (pal : List palette_entry)
    (cw : Nat → Bool) (i w h : Nat) (rest : List (Nat × Nat × Nat)) (pos : Nat) (st : Bool)
    (hempty : w = 0 ∨ h = 0) (hi : i ∉ rest.map (fun e => e.1)) :
    processEntries f base pal cw ((i, w, h) :: rest) pos st =
      processEntries f base pal cw rest pos st ∧
    i ∉ (processEntries f base pal cw ((i, w, h) :: rest) pos st).2.map (fun a => a.1) := by
  have hne : ¬(w ≠ 0 ∧ h ≠ 0) := by
    rcases hempty with h0 | h0 <;> simp [h0]
  have heq : processEntries f base pal cw ((i, w, h) :: rest) pos st =
      processEntries f base pal cw rest pos st := by
    rw [processEntries_cons, if_neg hne]
  refine ⟨heq, ?_⟩
  rw [heq]
  intro hmem
  rcases List.mem_map.mp hmem with ⟨x, hx, hxi⟩
  have := processEntries_artifact_indices f base pal cw rest pos st x hx
  rw [hxi] at this
  exact hi this

/-- C4 witness: an empty 0x3 entry followed by a 1x1 entry over a one-byte
payload region. -/
theorem decode_spr_skips_empty_witness :
    ((0 : Nat) = 0 ∨ (3 : Nat) = 0) ∧
    (0 : Nat) ∉ [((1 : Nat), (1 : Nat), (1 : Nat))].map (fun e => e.1) ∧
    (processEntries [9] "T" grayPal (fun _ => true) [(0, 0, 3), (1, 1, 1)] 0 true =
        processEntries [9] "T" grayPal (fun _ => true) [(1, 1, 1)] 0 true ∧
      (0 : Nat) ∉ (processEntries [9] "T" grayPal (fun _ => true)
        [(0, 0, 3), (1, 1, 1)] 0 true).2.map (fun a => a.1)) :=
  ⟨Or.inl rfl, by decide,
   decode_spr_skips_empty [9] "T" grayPal (fun _ => true) 0 0 3 [(1, 1, 1)] 0 true
     (Or.inl rfl) (by decide)⟩

theorem foldl_set_length : ∀ (ws : List (Nat × Nat)) (l : List Nat),
    (ws.foldl (fun l iv => l.set iv.1 iv.2) l).length = l.length
  | [], _ => rfl
  | (k, v) :: ws, l => by
    rw [List.foldl_cons, foldl_set_length ws]
    exact List.length_set l k v

theorem foldl_set_getD_not_mem : ∀ (ws : List (Nat × Nat)) (l : List Nat) (j : Nat),
    j ∉ ws.map Prod.fst →
    (ws.foldl (fun l iv => l.set iv.1 iv.2) l).getD j 0 = l.getD j 0
  | [], _, _ => fun _ => rfl
  | (k, v) :: ws, l, j => by
    intro hj
    rw [List.map_cons, List.mem_cons] at hj
    push_neg at hj
    rw [List.foldl_cons, foldl_set_getD_not_mem ws _ j hj.2]
    rw [List.getD_eq_getElem?_getD, List.getD_eq_getElem?_getD,
      List.getElem?_set_ne (fun hkj => hj.1 hkj.symm)]

theorem foldl_set_getD_mem : ∀ (ws : List (Nat × Nat)) (l : List Nat) (j v : Nat),
    (ws.map Prod.fst).Nodup → (j, v) ∈ ws → j < l.length →
    (ws.foldl (fun l iv => l.set iv.1 iv.2) l).getD j 0 = v
  | [], _, _, _ => fun _ hmem _ => absurd hmem (List.not_mem_nil _)
  | (k, w) :: ws, l, j, v => by
    intro hnd hmem hlen
    rw [List.map_cons, List.nodup_cons] at hnd
    rcases List.mem_cons.mp hmem with heq | hmem2
    · have hj : j = k := congrArg Prod.fst heq
      have hv : v = w := congrArg Prod.snd heq
      subst hj
      subst hv
      rw [List.foldl_cons, foldl_set_getD_not_mem ws _ j hnd.1]
      rw [List.getD_eq_getElem?_getD, List.getElem?_set_self hlen]
      rfl
    · rw [List.foldl_cons]
      exact foldl_set_getD_mem ws _ j v hnd.2 hmem2 (by rwa [List.length_set])

theorem linearWrites_fst_nodup (planar : List Nat) (n : Nat) :
    ((linearWrites planar n).map Prod.fst).Nodup := by
  simp only [linearWrites, MODEX_PLANES, List.map_flatMap, List.map_map]
  rw [List.nodup_flatMap]
  constructor
  · intro mp _
    refine List.Nodup.map ?_ (List.nodup_range _)
    intro a b hab
    simp only [Function.comp] at hab
    omega
  · rw [List.pairwise_iff_getElem]
    intro a b ha hb hab
    simp only [List.length_range] at ha hb
    simp only [Function.onFun, List.getElem_range]
    intro x hx1 hx2
    simp only [List.mem_map, Function.comp] at hx1 hx2
    rcases hx1 with ⟨p1, _, hp1⟩
    rcases hx2 with ⟨p2, _, hp2⟩
    omega

/-- C9: for a pixel count divisible by 4 and a 4-plane planar buffer,
`linearize_planar_data` places, for every plane `k < 4` and in-plane pixel
`p < pixelcount/4`, the planar byte at `k*(pixelcount/4) + p` at linear
position `4*p + k`. -/
theorem linearize_planar_data_correct (planar linear : List Nat) (pixelcount k p : Nat)
    (h4 : pixelcount % 4 = 0) (hlin : linear.length = pixelcount)
    (hk : k < 4) (hp : p < pixelcount / 4) :
    (linearize_planar_data planar linear pixelcount).getD (4 * p + k) 0 =
      planar.getD (k * (pixelcount / 4) + p) 0 := by
  have hmem : (4 * p + k, planar.getD (k * (pixelcount / 4) + p) 0) ∈
      linearWrites planar pixelcount := by
    simp only [linearWrites, MODEX_PLANES, List.mem_flatMap, List.mem_map, List.mem_range]
    exact ⟨k, hk, p, hp, rfl⟩
  have hlt : 4 * p + k < linear.length := by
    rw [hlin]
    omega
  exact foldl_set_getD_mem _ _ _ _ (linearWrites_fst_nodup planar pixelcount) hmem hlt

/-- C9 witness: pixel count 8 with planes [10,11,20,21,30,31,40,41];
position 4*1+1 of the linearized buffer holds planar byte 1*(8/4)+1. -/
theorem linearize_planar_data_correct_witness :
    8 % 4 = 0 ∧ (List.replicate 8 0).length = 8 ∧ 1 < 4 ∧ 1 < 8 / 4 ∧
    (linearize_planar_data [10, 11, 20, 21, 30, 31, 40, 41] (List.replicate 8 0) 8).getD
        (4 * 1 + 1) 0 =
      [10, 11, 20, 21, 30, 31, 40, 41].getD (1 * (8 / 4) + 1) 0 :=
  ⟨by decide, by decide, by decide, by decide,
   linearize_planar_data_correct [10, 11, 20, 21, 30, 31, 40, 41] (List.replicate 8 0) 8 1 1
     (by decide) (by decide) (by decide) (by decide)⟩

theorem sconcat_range_getD (pal : List palette_entry) :
    ∀ (data : List Nat) (j : Nat),
      sconcat ((List.range data.length).map fun i =>
        (if (j + i) % 4 = 0 then "\n" else "") ++ tripletStr (palLookup pal (data.getD i 0))) =
      renderFrom j (specTriplets pal data)
  | [], _ => rfl
  | b :: t, j => by
    rw [List.length_cons, List.range_succ_eq_map, List.map_cons, List.map_map]
    have hmap : (List.range t.length).map ((fun i =>
          (if (j + i) % 4 = 0 then "\n" else "") ++
            tripletStr (palLookup pal ((b :: t).getD i 0))) ∘ Nat.succ) =
        (List.range t.length).map (fun i =>
          (if ((j + 1) + i) % 4 = 0 then "\n" else "") ++
            tripletStr (palLookup pal (t.getD i 0))) := by
      refine List.map_congr_left fun i _ => ?_
      have hidx : j + (i + 1) = (j + 1) + i := by omega
      simp only [Function.comp, Nat.succ_eq_add_one, List.getD_cons_succ, hidx]
    rw [hmap, specTriplets, List.map_cons]
    show ((if (j + 0) % 4 = 0 then "\n" else "") ++
        tripletStr (palLookup pal ((b :: t).getD 0 0))) ++ _ = _
    rw [renderFrom, Nat.add_zero, List.getD_cons_zero]
    congr 1
    exact sconcat_range_getD pal t (j + 1)

theorem write_ppm_content_eq_render (pal : List palette_entry) (data : List Nat) (w h : Nat)
    (hlen : data.length = w * h) :
    write_ppm_content pal data w h =
      "P3\n" ++ toString w ++ " " ++ toString h ++ "\n255" ++
        renderFrom 0 (specTriplets pal data) := by
  rw [write_ppm_content, ← hlen]
  congr 1
  have := sconcat_range_getD pal data 0
  simp only [Nat.zero_add] at this
  exact this

theorem encodeDir_length : ∀ dir : List (Nat × Nat), (encodeDir dir).length = 2 * dir.length
  | [] => rfl
  | (w, h) :: t => by
    have ht := encodeDir_length t
    simp only [encodeDir, List.flatMap_cons, List.length_append, List.length_cons,
      List.length_nil] at ht ⊢
    omega

theorem toEntries_encodeDir : ∀ (i0 : Nat) (dir : List (Nat × Nat)),
    toEntries i0 (encodeDir dir) = enumTriples i0 dir
  | _, [] => rfl
  | i0, (w, h) :: t => by
    simp only [encodeDir, List.flatMap_cons, List.cons_append, List.nil_append]
    show toEntries i0 (w :: h :: encodeDir t) = _
    rw [toEntries, enumTriples]
    rw [toEntries_encodeDir (i0 + 1) t]

theorem expectedArtifacts_cons (base : String) (pal : List palette_entry) (i w h : Nat)
    (dt : List (Nat × Nat)) (pl : List Nat) (plt : List (List Nat)) :
    expectedArtifacts base pal i ((w, h) :: dt) (pl :: plt) =
      if w ≠ 0 ∧ h ≠ 0 then
        (i, ppm_filename base i,
          "P3\n" ++ toString w ++ " " ++ toString h ++ "\n255" ++
            renderFrom 0 (specTriplets pal pl)) :: expectedArtifacts base pal (i + 1) dt plt
      else
        expectedArtifacts base pal (i + 1) dt plt := rfl

theorem decode_spr_cons (base : String) (pal : List palette_entry) (cw : Nat → Bool)
    (n : Nat) (t : List Nat) :
    decode_spr base (some (n :: t)) pal cw =
      if (readBytes (n :: t) 1 (2 * n)).length = 2 * n then
        ⟨(processEntries (n :: t) base pal cw (toEntries 0 (readBytes (n :: t) 1 (2 * n)))
            (1 + 2 * n) true).1,
         (processEntries (n :: t) base pal cw (toEntries 0 (readBytes (n :: t) 1 (2 * n)))
            (1 + 2 * n) true).2,
         [.opened]⟩
      else
        ⟨false, [], [.opened]⟩ := rfl

theorem processEntries_encodeArchive (base : String) (pal : List palette_entry)
    (dir : List (Nat × Nat)) :
    ∀ (pls : List (List Nat)) (pre : List Nat) (i0 : Nat) (st : Bool),
      List.Forall₂ (fun wh pl => (pl : List Nat).length = wh.1 * wh.2) dir pls →
      processEntries (pre ++ pls.flatten) base pal (fun _ => true) (enumTriples i0 dir)
          pre.length st =
        (st, expectedArtifacts base pal i0 dir pls) := by
  induction dir with
  | nil =>
    intro pls pre i0 st hf
    cases hf
    simp [enumTriples, processEntries, expectedArtifacts]
  | cons wh dt ih =>
    intro pls pre i0 st hf
    obtain ⟨w, h⟩ := wh
    cases hf with
    | cons hlen hf2 =>
      rename_i pl plt
      by_cases hwh : w ≠ 0 ∧ h ≠ 0
      · have hchunk : readBytes (pre ++ (pl :: plt).flatten) pre.length (w * h) = pl := by
          rw [readBytes, List.flatten_cons, List.drop_left]
          exact List.take_left' hlen
        rw [enumTriples, processEntries_cons, if_pos hwh, hchunk, if_pos hlen]
        have hfile : pre ++ (pl :: plt).flatten = (pre ++ pl) ++ plt.flatten := by
          rw [List.flatten_cons, List.append_assoc]
        have hpos : pre.length + w * h = (pre ++ pl).length := by
          rw [List.length_append, hlen]
        simp only [write_ppm, ite_true, Bool.and_true]
        rw [hfile, hpos, ih plt (pre ++ pl) (i0 + 1) st hf2]
        rw [expectedArtifacts_cons, if_pos hwh]
        rw [write_ppm_content_eq_render pal pl w h hlen]
        simp
      · have hw0 : w * h = 0 := by
          rcases not_and_or.mp hwh with h0 | h0
          · push_neg at h0
            simp [h0]
          · push_neg at h0
            simp [h0]
        have hpl : pl = [] := List.eq_nil_of_length_eq_zero (by rw [hlen, hw0])
        subst hpl
        rw [enumTriples, processEntries_cons, if_neg hwh]
        rw [expectedArtifacts_cons, if_neg hwh]
        simp only [List.flatten_cons, List.nil_append]
        exact ih plt pre (i0 + 1) st hf2

/-- C1: decoding an archive built from a valid count, a valid directory,
and payload segments whose lengths match the directory (width*height bytes
per entry, empty for empty entries) succeeds and produces, for every
non-empty entry in directory order, exactly one artifact whose pixel text
is that entry's payload bytes mapped through the palette in order with no
reordering. -/
theorem decode_spr_roundtrip (base : String) (pal : List palette_entry)
    (dir : List (Nat × Nat)) (pls : List (List Nat))
    (hcount : dir.length ≤ 255)
    (hdims : ∀ wh ∈ dir, wh.1 ≤ 255 ∧ wh.2 ≤ 255)
    (hbytes : ∀ b ∈ pls.flatten, b ≤ 255)
    (hmatch : List.Forall₂ (fun wh pl => (pl : List Nat).length = wh.1 * wh.2) dir pls) :
    decode_spr base (some (encodeArchive dir pls)) pal (fun _ => true) =
      ⟨true, expectedArtifacts base pal 0 dir pls, [FdEvent.opened]⟩ := by
  have harch : encodeArchive dir pls = dir.length :: (encodeDir dir ++ pls.flatten) := rfl
  have hheader : readBytes (dir.length :: (encodeDir dir ++ pls.flatten)) 1 (2 * dir.length) =
      encodeDir dir := by
    rw [readBytes]
    rw [show List.drop 1 (dir.length :: (encodeDir dir ++ pls.flatten)) =
      encodeDir dir ++ pls.flatten from rfl]
    exact List.take_left' (encodeDir_length dir)
  rw [harch, decode_spr_cons, hheader, if_pos (encodeDir_length dir), toEntries_encodeDir]
  have hfile : dir.length :: (encodeDir dir ++ pls.flatten) =
      (dir.length :: encodeDir dir) ++ pls.flatten := rfl
  have hpre : 1 + 2 * dir.length = (dir.length :: encodeDir dir).length := by
    rw [List.length_cons, encodeDir_length]
    omega
  rw [hfile, hpre, processEntries_encodeArchive base pal dir pls
    (dir.length :: encodeDir dir) 0 true hmatch]

/-- C1 witness: a three-entry archive (1x2 sprite, empty 0x3 slot, 2x1
sprite) with payloads [9,8] and [7,6] under the grayscale palette. -/
theorem decode_spr_roundtrip_witness :
    decode_spr "T" (some (encodeArchive [(1, 2), (0, 3), (2, 1)] [[9, 8], [], [7, 6]])) grayPal
        (fun _ => true) =
      ⟨true, expectedArtifacts "T" grayPal 0 [(1, 2), (0, 3), (2, 1)] [[9, 8], [], [7, 6]],
       [FdEvent.opened]⟩ :=
  decode_spr_roundtrip "T" grayPal [(1, 2), (0, 3), (2, 1)] [[9, 8], [], [7, 6]]
    (by decide) (by decide) (by decide)
    (List.Forall₂.cons (by decide)
      (List.Forall₂.cons (by decide) (List.Forall₂.cons (by decide) List.Forall₂.nil)))
